import Mathlib

/-!
Shallow embedding of the valuation-band chart generator (`src/main.py`).

The pipeline is: fetch price and fundamental series, inner-join them on
date, drop rows with non-economic values, smooth the base column with a
trailing 120-observation mean, build five bands (fixed PER multiples per
ticker, or PBR quantiles over the whole series), sort the bands by
multiple and render.  Numeric data is modelled with `ℚ`.
-/

namespace KValuationBand

/-- The metric selector passed to `calculate_band_line` (`'PER'` or `'PBR'`). -/
inductive Metric
| PER
| PBR
deriving DecidableEq, Repr

/-- One row of the OHLCV frame returned by the price source; only the closing
price column (`종가`) is used by this program. -/
structure PriceRow where
  date : Nat
  close : ℚ
deriving DecidableEq, Repr

/-- One row of the fundamental frame: PER, PBR, EPS, BPS indexed by date. -/
structure FundRow where
  date : Nat
  per : ℚ
  pbr : ℚ
  eps : ℚ
  bps : ℚ
deriving DecidableEq, Repr

/-- One row of the joined frame built in `fetch_stock_data`. -/
structure Row where
  date : Nat
  close : ℚ
  per : ℚ
  pbr : ℚ
  eps : ℚ
  bps : ℚ
deriving DecidableEq, Repr

/-- The inner merge on the date index (`pd.merge(..., how='inner')`,
`src/main.py` lines 74-80): a price row survives exactly when some
fundamental row carries the same date, and the joined row copies the
closing price and the four fundamental columns. -/
def mergeInner (prices : List PriceRow) (funds : List FundRow) : List Row :=
  prices.filterMap fun p =>
    (funds.find? fun f => f.date == p.date).map fun f =>
      ⟨p.date, p.close, f.per, f.pbr, f.eps, f.bps⟩

/-- The row filter of `src/main.py` line 83:
`(df['PER'] > 0) & (df['PBR'] > 0) & (df['EPS'] != 0) & (df['BPS'] != 0)`. -/
def validRow (r : Row) : Bool :=
  decide (0 < r.per) && decide (0 < r.pbr) && decide (r.eps ≠ 0) && decide (r.bps ≠ 0)

/-- `fetch_stock_data` (`src/main.py` lines 49-85) with the external data
source abstracted into the two input series: return an empty frame when
either source is empty, otherwise inner-join and filter. -/
def fetch_stock_data (prices : List PriceRow) (funds : List FundRow) : List Row :=
  if prices.isEmpty then []
  else if funds.isEmpty then []
  else (mergeInner prices funds).filter validRow

/-- The trailing window ending at index `i`: the last `min (i+1) w` elements
of `xs.take (i+1)`. -/
def trailingWindow (w : Nat) (xs : List ℚ) (i : Nat) : List ℚ :=
  (xs.take (i + 1)).drop (i + 1 - w)

/-- `Series.rolling(window=w, min_periods=1).mean()` (`src/main.py` line
106): element `i` is the arithmetic mean of the trailing window of up to
`w` observations ending at `i`. -/
def rollingMean (w : Nat) (xs : List ℚ) : List ℚ :=
  (List.range xs.length).map fun i =>
    (trailingWindow w xs i).sum / ((trailingWindow w xs i).length : ℚ)

/-- A band: label, scalar multiple, color, and the line
`smoothed_base * multiple` (`src/main.py` lines 125-141). -/
structure Band where
  label : String
  multiple : ℚ
  color : String
  line : List ℚ
deriving DecidableEq, Repr

/-- The quantile configuration `BAND_QUANTILE` (`src/main.py` lines 37-43). -/
def BAND_QUANTILE : List (ℚ × String × String) :=
  [(1/10, "#FF6B6B", "10%"),
   (1/4, "#FFB347", "25%"),
   (1/2, "#87CEEB", "50%"),
   (3/4, "#77DD77", "75%"),
   (9/10, "#DDA0DD", "90%")]

/-- The fixed PER multiples table (`src/main.py` lines 112-123): ticker
`'005930'` gets 8/10/12/15/20, every other ticker falls to the `else`
branch with 5/8/12/15/20. -/
def perMultiples (ticker : String) : List (ℚ × String × String) :=
  if ticker = "005930" then
    [(8, "#FF6B6B", "8x"),
     (10, "#FFB347", "10x"),
     (12, "#87CEEB", "12x"),
     (15, "#77DD77", "15x"),
     (20, "#DDA0DD", "20x")]
  else
    [(5, "#FF6B6B", "5x"),
     (8, "#FFB347", "8x"),
     (12, "#87CEEB", "12x"),
     (15, "#77DD77", "15x"),
     (20, "#DDA0DD", "20x")]

/-- The base column selected at `src/main.py` line 103:
`'EPS' if metric == 'PER' else 'BPS'`. -/
def baseCol (m : Metric) : Row → ℚ :=
  match m with
  | .PER => Row.eps
  | .PBR => Row.bps

/-- Linear interpolation between the order statistics of an already sorted
list at the fractional rank `(n-1)*q`: the rank `h = (n-1)*q` falls between
positions `⌊h⌋` and `⌊h⌋+1`, and the value is interpolated accordingly. -/
def interpQuantile (ys : List ℚ) (q : ℚ) : ℚ :=
  if ys.length = 0 then 0
  else
    ys.getD (⌊((ys.length : ℚ) - 1) * q⌋.toNat) 0
      + (((ys.length : ℚ) - 1) * q - ((⌊((ys.length : ℚ) - 1) * q⌋.toNat : ℕ) : ℚ))
        * (ys.getD (⌊((ys.length : ℚ) - 1) * q⌋.toNat + 1)
             (ys.getD (⌊((ys.length : ℚ) - 1) * q⌋.toNat) 0)
           - ys.getD (⌊((ys.length : ℚ) - 1) * q⌋.toNat) 0)

/-- `Series.quantile(q)` with pandas' default linear interpolation
(`src/main.py` line 135): sort the values and interpolate between the
order statistics at ranks `⌊(n-1)q⌋` and `⌊(n-1)q⌋+1`. -/
def quantile (xs : List ℚ) (q : ℚ) : ℚ :=
  interpQuantile (xs.insertionSort (· ≤ ·)) q

/-- `calculate_band_line` (`src/main.py` lines 88-143).  The Python dict
keyed by distinct labels is modelled as a list in insertion order. -/
def calculate_band_line (df : List Row) (metric : Metric) (ticker : String) : List Band :=
  let smoothed_base := rollingMean 120 (df.map (baseCol metric))
  match metric with
  | .PER =>
    (perMultiples ticker).map fun t =>
      ⟨t.2.2, t.1, t.2.1, smoothed_base.map (· * t.1)⟩
  | .PBR =>
    BAND_QUANTILE.map fun t =>
      ⟨t.2.2, quantile (df.map Row.pbr) t.1, t.2.1,
        smoothed_base.map (· * quantile (df.map Row.pbr) t.1)⟩

/-- The sort key comparison used at `src/main.py` line 167:
`sorted(band_data.items(), key=lambda x: x[1]['multiple'])`. -/
def bandLE (a b : Band) : Prop := a.multiple ≤ b.multiple

instance : DecidableRel bandLE :=
  fun a b => inferInstanceAs (Decidable (a.multiple ≤ b.multiple))

instance : IsTotal Band bandLE :=
  ⟨fun a b => le_total a.multiple b.multiple⟩

instance : IsTrans Band bandLE :=
  ⟨fun _ _ _ h h2 => le_trans h h2⟩

/-- The stable ascending-by-multiple sort applied by `plot_band_chart`
before rendering (`src/main.py` line 167).  Python's `sorted` is a stable
total sort by the key, which uniquely determines its output; insertion
sort with the same key order realises it. -/
def sortBands (bs : List Band) : List Band :=
  bs.insertionSort bandLE

/-- The per-ticker file stem of `src/main.py` line 285:
`'samsung' if ticker == '005930' else 'hynix'`. -/
def chartStem (ticker : String) : String :=
  if ticker = "005930" then "samsung" else "hynix"

/-- The chart files one loop iteration of `main` produces for a ticker
(`src/main.py` lines 275-291): none when the prepared frame is empty,
otherwise the PER chart then the PBR chart. -/
def chartsFor (env : String → List PriceRow × List FundRow) (ticker : String) : List String :=
  let df := fetch_stock_data (env ticker).1 (env ticker).2
  if df.isEmpty then []
  else [chartStem ticker ++ "_per_band.png", chartStem ticker ++ "_pbr_band.png"]

/-- The ticker loop of `main` over `STOCK_INFO` keys in order
(`src/main.py` lines 30-33 and 269). -/
def stockTickers : List String := ["005930", "000660"]

/-- All chart files produced by one run of `main` over a ticker list. -/
def runCharts (env : String → List PriceRow × List FundRow) (ts : List String) : List String :=
  ts.flatMap (chartsFor env)

/-! ### Helper lemmas -/

theorem validRow_iff (r : Row) :
    validRow r = true ↔ (0 < r.per ∧ 0 < r.pbr ∧ r.eps ≠ 0 ∧ r.bps ≠ 0) := by
  simp [validRow, and_assoc]

theorem mergeInner_date_mem (prices : List PriceRow) (funds : List FundRow) (d : Nat) :
    (∃ r ∈ mergeInner prices funds, r.date = d)
      ↔ (∃ p ∈ prices, p.date = d) ∧ (∃ f ∈ funds, f.date = d) := by
  constructor
  · rintro ⟨r, hr, rfl⟩
    obtain ⟨p, hp, hg⟩ := List.mem_filterMap.mp hr
    obtain ⟨f, hfind, hrow⟩ := Option.map_eq_some'.mp hg
    have hf : f ∈ funds := List.mem_of_find?_eq_some hfind
    have hfd : f.date = p.date := by
      have := List.find?_some hfind
      simpa using this
    have hrd : r.date = p.date := by rw [← hrow]
    exact ⟨⟨p, hp, hrd.symm⟩, ⟨f, hf, by rw [hfd, hrd]⟩⟩
  · rintro ⟨⟨p, hp, hpd⟩, ⟨f, hf, hfd⟩⟩
    have hsome : (funds.find? fun g => g.date == p.date).isSome = true := by
      rw [List.find?_isSome]
      exact ⟨f, hf, by simp [hfd, hpd]⟩
    obtain ⟨f2, hfind⟩ := Option.isSome_iff_exists.mp hsome
    refine ⟨⟨p.date, p.close, f2.per, f2.pbr, f2.eps, f2.bps⟩, ?_, hpd⟩
    exact List.mem_filterMap.mpr ⟨p, hp, by rw [hfind]; rfl⟩

theorem mergeInner_disjoint_eq_nil (prices : List PriceRow) (funds : List FundRow)
    (h : ∀ p ∈ prices, ∀ f ∈ funds, p.date ≠ f.date) :
    mergeInner prices funds = [] := by
  rw [mergeInner, List.filterMap_eq_nil_iff]
  intro p hp
  rw [Option.map_eq_none', List.find?_eq_none]
  intro f hf
  simpa using (h p hp f hf).symm

theorem fetch_stock_data_eq_nil (prices : List PriceRow) (funds : List FundRow)
    (h : prices = [] ∨ funds = []
        ∨ (mergeInner prices funds).filter validRow = []) :
    fetch_stock_data prices funds = [] := by
  rcases h with h | h | h <;> simp [fetch_stock_data, h]

theorem rollingMean_length (w : Nat) (xs : List ℚ) :
    (rollingMean w xs).length = xs.length := by
  simp [rollingMean]

theorem trailingWindow_length (w : Nat) (xs : List ℚ) (i : Nat) (hi : i < xs.length) :
    (trailingWindow w xs i).length = min (i + 1) w := by
  simp only [trailingWindow, List.length_drop, List.length_take]
  omega

theorem rollingMean_getD (w : Nat) (xs : List ℚ) (i : Nat) (hi : i < xs.length) :
    (rollingMean w xs).getD i 0
      = (trailingWindow w xs i).sum / ((trailingWindow w xs i).length : ℚ) := by
  have hi2 : i < (rollingMean w xs).length := by rw [rollingMean_length]; exact hi
  rw [List.getD_eq_getElem _ _ hi2]
  simp [rollingMean]

theorem rollingMean_head (w : Nat) (xs : List ℚ) (hw : 1 ≤ w) :
    (rollingMean w xs).head? = xs.head? := by
  cases xs with
  | nil => rfl
  | cons a l =>
    have h0 : trailingWindow w (a :: l) 0 = [a] := by
      simp [trailingWindow, Nat.sub_eq_zero_of_le hw]
    simp [rollingMean, List.range_succ_eq_map, h0]

/-! ### Claim theorems -/

/-- C1: the smoothed base series is the trailing arithmetic mean of the base
column (EPS for PER, BPS for PBR) over a 120-observation window, with
partial windows of at least 1 observation at the start; it has the same
length as the input and its first value equals the base column's first
value. -/
theorem smoothed_base_trailing_mean (df : List Row) (m : Metric) (i : Nat)
    (hi : i < df.length) :
    baseCol .PER = Row.eps
    ∧ baseCol .PBR = Row.bps
    ∧ (rollingMean 120 (df.map (baseCol m))).length = df.length
    ∧ (rollingMean 120 (df.map (baseCol m))).getD i 0
        = (trailingWindow 120 (df.map (baseCol m)) i).sum / ((min (i + 1) 120 : ℕ) : ℚ)
    ∧ (trailingWindow 120 (df.map (baseCol m)) i).length = min (i + 1) 120
    ∧ 1 ≤ min (i + 1) 120
    ∧ (rollingMean 120 (df.map (baseCol m))).head? = (df.map (baseCol m)).head? := by
  have hlen : (df.map (baseCol m)).length = df.length := by simp
  have hi2 : i < (df.map (baseCol m)).length := by rw [hlen]; exact hi
  have htw := trailingWindow_length 120 (df.map (baseCol m)) i hi2
  refine ⟨rfl, rfl, by rw [rollingMean_length, hlen], ?_, htw, by omega,
    rollingMean_head 120 _ (by omega)⟩
  rw [rollingMean_getD 120 _ i hi2, htw]

/-- Witness for C1 at a one-row series and index 0. -/
theorem smoothed_base_trailing_mean_witness :
    0 < ([⟨0, 1, 1, 1, 2, 3⟩] : List Row).length
    ∧ (baseCol .PER = Row.eps
       ∧ baseCol .PBR = Row.bps
       ∧ (rollingMean 120 (([⟨0, 1, 1, 1, 2, 3⟩] : List Row).map (baseCol .PER))).length
           = ([⟨0, 1, 1, 1, 2, 3⟩] : List Row).length
       ∧ (rollingMean 120 (([⟨0, 1, 1, 1, 2, 3⟩] : List Row).map (baseCol .PER))).getD 0 0
           = (trailingWindow 120 (([⟨0, 1, 1, 1, 2, 3⟩] : List Row).map (baseCol .PER)) 0).sum
               / ((min (0 + 1) 120 : ℕ) : ℚ)
       ∧ (trailingWindow 120 (([⟨0, 1, 1, 1, 2, 3⟩] : List Row).map (baseCol .PER)) 0).length
           = min (0 + 1) 120
       ∧ 1 ≤ min (0 + 1) 120
       ∧ (rollingMean 120 (([⟨0, 1, 1, 1, 2, 3⟩] : List Row).map (baseCol .PER))).head?
           = (([⟨0, 1, 1, 1, 2, 3⟩] : List Row).map (baseCol .PER)).head?) :=
  ⟨by decide, smoothed_base_trailing_mean [⟨0, 1, 1, 1, 2, 3⟩] .PER 0 (by decide)⟩

/-- C2: for every prepared series, the PER BandSet for ticker `'005930'` has
exactly the multiples 8/10/12/15/20 and for `'000660'` exactly 5/8/12/15/20,
independent of the input data, and each band's line is the smoothed base
series (trailing 120-mean of EPS) multiplied pointwise by the band's
multiple. -/
theorem per_multiples_fixed_per_ticker (df : List Row) (ticker : String) (b : Band)
    (hb : b ∈ calculate_band_line df .PER ticker) :
    (calculate_band_line df .PER "005930").map Band.multiple = [8, 10, 12, 15, 20]
    ∧ (calculate_band_line df .PER "000660").map Band.multiple = [5, 8, 12, 15, 20]
    ∧ b.line = (rollingMean 120 (df.map Row.eps)).map (· * b.multiple) := by
  refine ⟨rfl, rfl, ?_⟩
  simp only [calculate_band_line] at hb
  obtain ⟨t, _, rfl⟩ := List.mem_map.mp hb
  rfl

/-- Witness for C2 at the empty series and the first `'005930'` band. -/
theorem per_multiples_fixed_per_ticker_witness :
    (⟨"8x", 8, "#FF6B6B", []⟩ : Band) ∈ calculate_band_line [] .PER "005930"
    ∧ ((calculate_band_line [] .PER "005930").map Band.multiple = [8, 10, 12, 15, 20]
       ∧ (calculate_band_line [] .PER "000660").map Band.multiple = [5, 8, 12, 15, 20]
       ∧ (⟨"8x", 8, "#FF6B6B", []⟩ : Band).line
           = (rollingMean 120 (([] : List Row).map Row.eps)).map
               (· * (⟨"8x", 8, "#FF6B6B", []⟩ : Band).multiple)) :=
  ⟨by with_unfolding_all decide,
   per_multiples_fixed_per_ticker [] "005930" _ (by with_unfolding_all decide)⟩

/-- C6: when a ticker's price series, fundamental series, or filtered result
is empty, the `main` loop produces no charts for that ticker, raises no
error, and processes the remaining tickers unchanged. -/
theorem empty_data_skips_ticker (env : String → List PriceRow × List FundRow)
    (t : String) (ts1 ts2 : List String)
    (h : (env t).1 = [] ∨ (env t).2 = []
        ∨ (mergeInner (env t).1 (env t).2).filter validRow = []) :
    chartsFor env t = []
    ∧ runCharts env (ts1 ++ t :: ts2) = runCharts env ts1 ++ runCharts env ts2 := by
  have hempty : fetch_stock_data (env t).1 (env t).2 = [] :=
    fetch_stock_data_eq_nil _ _ h
  have hc : chartsFor env t = [] := by
    rw [chartsFor, hempty]
    rfl
  refine ⟨hc, ?_⟩
  rw [runCharts, runCharts, runCharts, List.flatMap_append, List.flatMap_cons, hc,
    List.nil_append]

/-- Witness for C6: an environment with no data for `'005930'` still yields
the `'000660'` charts. -/
theorem empty_data_skips_ticker_witness :
    ((fun _ => (([] : List PriceRow), ([] : List FundRow))) "005930").1 = []
    ∧ (chartsFor (fun _ => (([] : List PriceRow), ([] : List FundRow))) "005930" = []
       ∧ runCharts (fun _ => (([] : List PriceRow), ([] : List FundRow)))
            ([] ++ "005930" :: ["000660"])
          = runCharts (fun _ => (([] : List PriceRow), ([] : List FundRow))) []
            ++ runCharts (fun _ => (([] : List PriceRow), ([] : List FundRow))) ["000660"]) :=
  ⟨rfl,
   empty_data_skips_ticker (fun _ => ([], [])) "005930" [] ["000660"] (Or.inl rfl)⟩

/-- C9: every ticker other than `'005930'` — not only `'000660'` — falls to
the `else` branch of the PER configuration and gets multiples 5/8/12/15/20;
the PER branch is total and always returns five bands. -/
theorem per_fallback_multiples (df : List Row) (ticker : String)
    (h : ticker ≠ "005930") :
    (calculate_band_line df .PER ticker).map Band.multiple = [5, 8, 12, 15, 20]
    ∧ (calculate_band_line df .PER ticker).length = 5 := by
  have hp : perMultiples ticker =
      [(5, "#FF6B6B", "5x"),
       (8, "#FFB347", "8x"),
       (12, "#87CEEB", "12x"),
       (15, "#77DD77", "15x"),
       (20, "#DDA0DD", "20x")] := by
    rw [perMultiples, if_neg h]
  constructor
  · simp [calculate_band_line, hp]
  · simp [calculate_band_line, hp]

/-- Witness for C9 at the concrete ticker `'999999'`. -/
theorem per_fallback_multiples_witness :
    ("999999" : String) ≠ "005930"
    ∧ ((calculate_band_line [] .PER "999999").map Band.multiple = [5, 8, 12, 15, 20]
       ∧ (calculate_band_line [] .PER "999999").length = 5) :=
  ⟨by decide, per_fallback_multiples [] "999999" (by decide)⟩

/-- C4: every row of the prepared series satisfies `PER > 0`, `PBR > 0`,
`EPS ≠ 0` and `BPS ≠ 0`; offending rows are dropped entirely (the prepared
series is a sublist of the joined series, rows unmodified), not repaired. -/
theorem prepared_rows_valid (prices : List PriceRow) (funds : List FundRow) (r : Row)
    (hr : r ∈ fetch_stock_data prices funds) :
    (0 < r.per ∧ 0 < r.pbr ∧ r.eps ≠ 0 ∧ r.bps ≠ 0)
    ∧ (fetch_stock_data prices funds).Sublist (mergeInner prices funds) := by
  by_cases h1 : prices.isEmpty
  · rw [fetch_stock_data, if_pos h1] at hr
    exact absurd hr (List.not_mem_nil r)
  · by_cases h2 : funds.isEmpty
    · rw [fetch_stock_data, if_neg h1, if_pos h2] at hr
      exact absurd hr (List.not_mem_nil r)
    · rw [fetch_stock_data, if_neg h1, if_neg h2] at hr ⊢
      refine ⟨(validRow_iff r).mp (List.mem_filter.mp hr).2, List.filter_sublist _⟩

/-- Witness for C4: a concrete pair of series with one joined row passing the
filter. -/
theorem prepared_rows_valid_witness :
    (⟨1, 100, 10, 1, 5, 3⟩ : Row) ∈
        fetch_stock_data [⟨1, 100⟩, ⟨2, 50⟩]
          [⟨1, 10, 1, 5, 3⟩, ⟨2, -1, 1, 5, 3⟩]
    ∧ ((0 < (⟨1, 100, 10, 1, 5, 3⟩ : Row).per
        ∧ 0 < (⟨1, 100, 10, 1, 5, 3⟩ : Row).pbr
        ∧ (⟨1, 100, 10, 1, 5, 3⟩ : Row).eps ≠ 0
        ∧ (⟨1, 100, 10, 1, 5, 3⟩ : Row).bps ≠ 0)
       ∧ (fetch_stock_data [⟨1, 100⟩, ⟨2, 50⟩]
            [⟨1, 10, 1, 5, 3⟩, ⟨2, -1, 1, 5, 3⟩]).Sublist
           (mergeInner [⟨1, 100⟩, ⟨2, 50⟩]
            [⟨1, 10, 1, 5, 3⟩, ⟨2, -1, 1, 5, 3⟩])) :=
  ⟨by with_unfolding_all decide,
   prepared_rows_valid _ _ _ (by with_unfolding_all decide)⟩

/-- C5: a date appears in the joined series exactly when it appears in both
the price series and the fundamental series (inner-join semantics), and
inputs with disjoint date sets yield an empty prepared series — returned as
an ordinary empty value, not an error. -/
theorem inner_join_date_membership (prices : List PriceRow) (funds : List FundRow)
    (d : Nat) :
    ((∃ r ∈ mergeInner prices funds, r.date = d)
      ↔ (∃ p ∈ prices, p.date = d) ∧ (∃ f ∈ funds, f.date = d))
    ∧ ((∀ p ∈ prices, ∀ f ∈ funds, p.date ≠ f.date)
      → fetch_stock_data prices funds = []) := by
  refine ⟨mergeInner_date_mem prices funds d, fun h => ?_⟩
  exact fetch_stock_data_eq_nil prices funds
    (Or.inr (Or.inr (by rw [mergeInner_disjoint_eq_nil prices funds h, List.filter_nil])))

/-- Witness for C5 at concrete disjoint inputs. -/
theorem inner_join_date_membership_witness :
    ((∃ r ∈ mergeInner [⟨1, 100⟩] [⟨2, 10, 1, 5, 3⟩], r.date = 1)
      ↔ (∃ p ∈ ([⟨1, 100⟩] : List PriceRow), p.date = 1)
        ∧ (∃ f ∈ ([⟨2, 10, 1, 5, 3⟩] : List FundRow), f.date = 1))
    ∧ ((∀ p ∈ ([⟨1, 100⟩] : List PriceRow), ∀ f ∈ ([⟨2, 10, 1, 5, 3⟩] : List FundRow),
          p.date ≠ f.date)
      → fetch_stock_data [⟨1, 100⟩] [⟨2, 10, 1, 5, 3⟩] = []) :=
  inner_join_date_membership [⟨1, 100⟩] [⟨2, 10, 1, 5, 3⟩] 1

theorem trailingWindow_replicate (w n : Nat) (c : ℚ) (i : Nat) (hi : i < n) :
    trailingWindow w (List.replicate n c) i = List.replicate (min (i + 1) w) c := by
  rw [trailingWindow, List.take_replicate, List.drop_replicate]
  congr 1
  omega

theorem rollingMean_replicate (w n : Nat) (hw : 1 ≤ w) (c : ℚ) :
    rollingMean w (List.replicate n c) = List.replicate n c := by
  rw [List.eq_replicate_iff]
  refine ⟨by rw [rollingMean_length, List.length_replicate], ?_⟩
  intro b hb
  rw [rollingMean] at hb
  obtain ⟨i, hi, rfl⟩ := List.mem_map.mp hb
  have hin : i < n := by simpa using List.mem_range.mp hi
  rw [trailingWindow_replicate w n c i hin, List.sum_replicate, List.length_replicate,
    nsmul_eq_mul]
  exact mul_div_cancel_left₀ c (Nat.cast_ne_zero.mpr (by omega))

theorem replicate_mul_getD (n : Nat) (c v : ℚ) (i : Nat) (hi : i < n) :
    ((List.replicate n c).map (· * v)).getD i 0 = c * v := by
  rw [List.map_replicate, List.getD_eq_getElem _ _ (by simpa using hi),
    List.getElem_replicate]

/-- The synthetic 130-row series of the end-to-end check: constant closing
price and constant `EPS = 10`. -/
def c8Row : Row := ⟨0, 100, 10, 1, 10, 7⟩

/-- A 130-row prepared series made of 130 copies of `c8Row`. -/
def c8df : List Row := List.replicate 130 c8Row

/-- C8: on the synthetic 130-row series with constant `EPS = 10`, the five
PER band line values of ticker `'005930'` at every row index at or past 120
are exactly 80/100/120/150/200. -/
theorem constant_eps_band_values (i : Nat) (_h120 : 120 ≤ i) (h130 : i < 130) :
    (calculate_band_line c8df .PER "005930").map (fun b => b.line.getD i 0)
      = [80, 100, 120, 150, 200] := by
  have hsm : rollingMean 120 (c8df.map (baseCol .PER)) = List.replicate 130 10 := by
    have hbase : c8df.map (baseCol .PER) = List.replicate 130 10 := by
      rw [c8df, List.map_replicate]
      rfl
    rw [hbase]
    exact rollingMean_replicate 120 130 (by omega) 10
  have hcb : calculate_band_line c8df .PER "005930"
      = [⟨"8x", 8, "#FF6B6B", (List.replicate 130 (10 : ℚ)).map (· * 8)⟩,
         ⟨"10x", 10, "#FFB347", (List.replicate 130 (10 : ℚ)).map (· * 10)⟩,
         ⟨"12x", 12, "#87CEEB", (List.replicate 130 (10 : ℚ)).map (· * 12)⟩,
         ⟨"15x", 15, "#77DD77", (List.replicate 130 (10 : ℚ)).map (· * 15)⟩,
         ⟨"20x", 20, "#DDA0DD", (List.replicate 130 (10 : ℚ)).map (· * 20)⟩] := by
    simp only [calculate_band_line, hsm]
    rfl
  rw [hcb]
  simp only [List.map_cons, List.map_nil]
  rw [replicate_mul_getD 130 10 8 i h130, replicate_mul_getD 130 10 10 i h130,
    replicate_mul_getD 130 10 12 i h130, replicate_mul_getD 130 10 15 i h130,
    replicate_mul_getD 130 10 20 i h130]
  norm_num

/-- Witness for C8 at row index 120. -/
theorem constant_eps_band_values_witness :
    (120 ≤ 120 ∧ 120 < 130)
    ∧ (calculate_band_line c8df .PER "005930").map (fun b => b.line.getD 120 0)
        = [80, 100, 120, 150, 200] :=
  ⟨⟨by decide, by decide⟩, constant_eps_band_values 120 (by decide) (by decide)⟩

theorem filter_orderedInsert_multiple (m : ℚ) (a : Band) (l : List Band) :
    ((l.orderedInsert bandLE a).filter fun b => b.multiple == m)
      = if (a.multiple == m) = true
          then a :: l.filter (fun b => b.multiple == m)
          else l.filter fun b => b.multiple == m := by
  induction l with
  | nil => rw [List.orderedInsert_nil, List.filter_cons, List.filter_nil]
  | cons b l ih =>
    rw [List.orderedInsert]
    by_cases hab : bandLE a b
    · rw [if_pos hab, List.filter_cons]
    · rw [if_neg hab, List.filter_cons, ih, List.filter_cons]
      by_cases hbm : (b.multiple == m) = true
      · have ham : ¬ (a.multiple == m) = true := by
          have hlt : b.multiple < a.multiple := lt_of_not_le hab
          have hbm2 : b.multiple = m := by simpa using hbm
          simp only [beq_iff_eq]
          intro ham2
          rw [ham2, ← hbm2] at hlt
          exact lt_irrefl _ hlt
        rw [if_pos hbm, if_neg ham, if_neg ham, if_pos hbm]
      · rw [if_neg hbm, if_neg hbm]

theorem filter_insertionSort_multiple (m : ℚ) (l : List Band) :
    ((l.insertionSort bandLE).filter fun b => b.multiple == m)
      = l.filter fun b => b.multiple == m := by
  induction l with
  | nil => rfl
  | cons a l ih =>
    rw [List.insertionSort, filter_orderedInsert_multiple, ih, List.filter_cons]

/-- C7: the pre-render sort of a BandSet by multiple is a permutation, is
ascending by multiple, is stable (bands sharing any given multiple keep
their relative order), and its order `bandLE` is total, so the sort is
defined even when two bands share a multiple. -/
theorem band_sort_stable_total_ascending (bs : List Band) (m : ℚ) :
    (sortBands bs).Perm bs
    ∧ List.Sorted bandLE (sortBands bs)
    ∧ ((sortBands bs).filter fun b => b.multiple == m)
        = bs.filter (fun b => b.multiple == m)
    ∧ (∀ a b : Band, bandLE a b ∨ bandLE b a) :=
  ⟨List.perm_insertionSort _ _, List.sorted_insertionSort _ _,
    filter_insertionSort_multiple m bs, fun a b => le_total a.multiple b.multiple⟩

theorem sorted_getD_mono {ys : List ℚ} (S : ys.Sorted (· ≤ ·)) {a b : Nat}
    (hab : a ≤ b) (hb : b < ys.length) :
    ys.getD a 0 ≤ ys.getD b 0 := by
  have ha : a < ys.length := lt_of_le_of_lt hab hb
  rw [List.getD_eq_getElem _ _ ha, List.getD_eq_getElem _ _ hb]
  have := S.rel_get_of_le (a := ⟨a, ha⟩) (b := ⟨b, hb⟩) hab
  simpa using this

theorem sorted_getD_succ {ys : List ℚ} (S : ys.Sorted (· ≤ ·)) (j : Nat) :
    ys.getD j 0 ≤ ys.getD (j + 1) (ys.getD j 0) := by
  by_cases h : j + 1 < ys.length
  · have hj : j < ys.length := by omega
    rw [List.getD_eq_getElem _ _ h, List.getD_eq_getElem _ _ hj]
    have := S.rel_get_of_le (a := ⟨j, hj⟩) (b := ⟨j + 1, h⟩) (by simp)
    simpa using this
  · rw [List.getD_eq_default ys (ys.getD j 0) (n := j + 1) (by omega)]

theorem interpQuantile_mono {ys : List ℚ} (S : ys.Sorted (· ≤ ·)) {q1 q2 : ℚ}
    (h0 : 0 ≤ q1) (h12 : q1 ≤ q2) (h21 : q2 ≤ 1) :
    interpQuantile ys q1 ≤ interpQuantile ys q2 := by
  by_cases hn : ys.length = 0
  · rw [interpQuantile, interpQuantile, if_pos hn, if_pos hn]
  · rw [interpQuantile, interpQuantile, if_neg hn, if_neg hn]
    set n := ys.length with hndef
    have hn1 : 1 ≤ n := Nat.one_le_iff_ne_zero.mpr hn
    have hc : (0 : ℚ) ≤ (n : ℚ) - 1 := by
      have h1n : (1 : ℚ) ≤ (n : ℚ) := by exact_mod_cast hn1
      linarith
    set h1 : ℚ := ((n : ℚ) - 1) * q1 with hh1
    set h2 : ℚ := ((n : ℚ) - 1) * q2 with hh2
    have h1nn : 0 ≤ h1 := mul_nonneg hc h0
    have h2nn : 0 ≤ h2 := mul_nonneg hc (le_trans h0 h12)
    have h12q : h1 ≤ h2 := mul_le_mul_of_nonneg_left h12 hc
    have h2le : h2 ≤ (n : ℚ) - 1 := by
      calc h2 ≤ ((n : ℚ) - 1) * 1 := mul_le_mul_of_nonneg_left h21 hc
      _ = (n : ℚ) - 1 := mul_one _
    set j1 := (⌊h1⌋).toNat with hj1
    set j2 := (⌊h2⌋).toNat with hj2
    have hj1f : ((j1 : ℕ) : ℤ) = ⌊h1⌋ := Int.toNat_of_nonneg (Int.floor_nonneg.mpr h1nn)
    have hj2f : ((j2 : ℕ) : ℤ) = ⌊h2⌋ := Int.toNat_of_nonneg (Int.floor_nonneg.mpr h2nn)
    have hj1le : ((j1 : ℕ) : ℚ) ≤ h1 := by
      have hfl := Int.floor_le h1
      rw [← hj1f] at hfl
      exact_mod_cast hfl
    have hj2le : ((j2 : ℕ) : ℚ) ≤ h2 := by
      have hfl := Int.floor_le h2
      rw [← hj2f] at hfl
      exact_mod_cast hfl
    have hj1lt : h1 < ((j1 : ℕ) : ℚ) + 1 := by
      have hfl := Int.lt_floor_add_one h1
      rw [← hj1f] at hfl
      exact_mod_cast hfl
    have hj12 : j1 ≤ j2 := by
      rw [hj1, hj2]
      exact Int.toNat_le_toNat (Int.floor_le_floor h12q)
    have hj2n : j2 < n := by
      have hq : ((j2 : ℕ) : ℚ) + 1 ≤ (n : ℚ) := by linarith
      have hq2 : ((j2 + 1 : ℕ) : ℚ) ≤ (n : ℚ) := by push_cast; linarith
      have hle : j2 + 1 ≤ n := by exact_mod_cast hq2
      omega
    rcases eq_or_lt_of_le hj12 with heq | hlt
    · rw [← heq]
      have hd : 0 ≤ ys.getD (j1 + 1) (ys.getD j1 0) - ys.getD j1 0 :=
        sub_nonneg.mpr (sorted_getD_succ S j1)
      have hgg : h1 - ((j1 : ℕ) : ℚ) ≤ h2 - ((j1 : ℕ) : ℚ) := by linarith
      have := mul_le_mul_of_nonneg_right hgg hd
      linarith
    · have hj11 : j1 + 1 ≤ j2 := hlt
      have hj11n : j1 + 1 < n := by omega
      have hdef : ys.getD (j1 + 1) (ys.getD j1 0) = ys.getD (j1 + 1) 0 := by
        rw [List.getD_eq_getElem _ _ hj11n, List.getD_eq_getElem _ _ hj11n]
      have hd1 : ys.getD j1 0 ≤ ys.getD (j1 + 1) 0 :=
        sorted_getD_mono S (by omega) hj11n
      have hg1le : h1 - ((j1 : ℕ) : ℚ) ≤ 1 := by linarith
      have hstep1 : ys.getD j1 0
          + (h1 - ((j1 : ℕ) : ℚ)) * (ys.getD (j1 + 1) (ys.getD j1 0) - ys.getD j1 0)
          ≤ ys.getD (j1 + 1) 0 := by
        rw [hdef]
        have := mul_le_mul_of_nonneg_right hg1le (sub_nonneg.mpr hd1)
        linarith
      have hstep2 : ys.getD (j1 + 1) 0 ≤ ys.getD j2 0 :=
        sorted_getD_mono S hj11 hj2n
      have hstep3 : ys.getD j2 0
          ≤ ys.getD j2 0
            + (h2 - ((j2 : ℕ) : ℚ)) * (ys.getD (j2 + 1) (ys.getD j2 0) - ys.getD j2 0) := by
        have hg2 : 0 ≤ h2 - ((j2 : ℕ) : ℚ) := by linarith
        have hd2 : 0 ≤ ys.getD (j2 + 1) (ys.getD j2 0) - ys.getD j2 0 :=
          sub_nonneg.mpr (sorted_getD_succ S j2)
        nlinarith
      linarith

theorem quantile_mono (xs : List ℚ) {q1 q2 : ℚ}
    (h0 : 0 ≤ q1) (h12 : q1 ≤ q2) (h21 : q2 ≤ 1) :
    quantile xs q1 ≤ quantile xs q2 :=
  interpQuantile_mono (List.sorted_insertionSort _ xs) h0 h12 h21

/-- C3: for a non-empty prepared series the PBR BandSet has exactly five
bands whose multiples are the linear-interpolation quantiles of the PBR
column at probabilities 0.10/0.25/0.50/0.75/0.90; the 0.50 band's multiple
is the median (PBR values 1..5 give 3), and each band's line is the
smoothed BPS base times the scalar multiple. -/
theorem pbr_multiples_are_quantiles (df : List Row) (ticker : String) (_h : df ≠ []) :
    (calculate_band_line df .PBR ticker).map Band.multiple
      = [quantile (df.map Row.pbr) (1/10), quantile (df.map Row.pbr) (1/4),
         quantile (df.map Row.pbr) (1/2), quantile (df.map Row.pbr) (3/4),
         quantile (df.map Row.pbr) (9/10)]
    ∧ (∀ b ∈ calculate_band_line df .PBR ticker,
        b.line = (rollingMean 120 (df.map Row.bps)).map (· * b.multiple))
    ∧ quantile [1, 2, 3, 4, 5] (1/2) = 3
    ∧ (BAND_QUANTILE.map fun t => t.1) = [1/10, 1/4, 1/2, 3/4, 9/10] := by
  refine ⟨rfl, ?_, by with_unfolding_all decide, rfl⟩
  intro b hb
  simp only [calculate_band_line] at hb
  obtain ⟨t, _, rfl⟩ := List.mem_map.mp hb
  rfl

/-- Witness for C3 at a one-row series. -/
theorem pbr_multiples_are_quantiles_witness :
    ([⟨0, 1, 1, 1, 1, 1⟩] : List Row) ≠ []
    ∧ ((calculate_band_line [⟨0, 1, 1, 1, 1, 1⟩] .PBR "005930").map Band.multiple
        = [quantile (([⟨0, 1, 1, 1, 1, 1⟩] : List Row).map Row.pbr) (1/10),
           quantile (([⟨0, 1, 1, 1, 1, 1⟩] : List Row).map Row.pbr) (1/4),
           quantile (([⟨0, 1, 1, 1, 1, 1⟩] : List Row).map Row.pbr) (1/2),
           quantile (([⟨0, 1, 1, 1, 1, 1⟩] : List Row).map Row.pbr) (3/4),
           quantile (([⟨0, 1, 1, 1, 1, 1⟩] : List Row).map Row.pbr) (9/10)]
       ∧ (∀ b ∈ calculate_band_line [⟨0, 1, 1, 1, 1, 1⟩] .PBR "005930",
            b.line = (rollingMean 120 (([⟨0, 1, 1, 1, 1, 1⟩] : List Row).map Row.bps)).map
              (· * b.multiple))
       ∧ quantile [1, 2, 3, 4, 5] (1/2) = 3
       ∧ (BAND_QUANTILE.map fun t => t.1) = [1/10, 1/4, 1/2, 3/4, 9/10]) :=
  ⟨by decide, pbr_multiples_are_quantiles [⟨0, 1, 1, 1, 1, 1⟩] "005930" (by decide)⟩

/-- C10: for every non-empty prepared series the five PBR band multiples
are nondecreasing in quantile probability, so the ascending-by-multiple
sort leaves the PBR BandSet in its configured probability order. -/
theorem pbr_multiples_monotone (df : List Row) (ticker : String) (_h : df ≠ []) :
    List.Sorted (· ≤ ·) ((calculate_band_line df .PBR ticker).map Band.multiple)
    ∧ sortBands (calculate_band_line df .PBR ticker)
        = calculate_band_line df .PBR ticker := by
  have hs : List.Sorted (· ≤ ·) ((calculate_band_line df .PBR ticker).map Band.multiple) := by
    have hmap : (calculate_band_line df .PBR ticker).map Band.multiple
        = [quantile (df.map Row.pbr) (1/10), quantile (df.map Row.pbr) (1/4),
           quantile (df.map Row.pbr) (1/2), quantile (df.map Row.pbr) (3/4),
           quantile (df.map Row.pbr) (9/10)] := rfl
    rw [hmap]
    have m12 := quantile_mono (df.map Row.pbr)
      (show (0:ℚ) ≤ 1/10 by norm_num) (show (1:ℚ)/10 ≤ 1/4 by norm_num)
      (show (1:ℚ)/4 ≤ 1 by norm_num)
    have m13 := quantile_mono (df.map Row.pbr)
      (show (0:ℚ) ≤ 1/10 by norm_num) (show (1:ℚ)/10 ≤ 1/2 by norm_num)
      (show (1:ℚ)/2 ≤ 1 by norm_num)
    have m14 := quantile_mono (df.map Row.pbr)
      (show (0:ℚ) ≤ 1/10 by norm_num) (show (1:ℚ)/10 ≤ 3/4 by norm_num)
      (show (3:ℚ)/4 ≤ 1 by norm_num)
    have m15 := quantile_mono (df.map Row.pbr)
      (show (0:ℚ) ≤ 1/10 by norm_num) (show (1:ℚ)/10 ≤ 9/10 by norm_num)
      (show (9:ℚ)/10 ≤ 1 by norm_num)
    have m23 := quantile_mono (df.map Row.pbr)
      (show (0:ℚ) ≤ 1/4 by norm_num) (show (1:ℚ)/4 ≤ 1/2 by norm_num)
      (show (1:ℚ)/2 ≤ 1 by norm_num)
    have m24 := quantile_mono (df.map Row.pbr)
      (show (0:ℚ) ≤ 1/4 by norm_num) (show (1:ℚ)/4 ≤ 3/4 by norm_num)
      (show (3:ℚ)/4 ≤ 1 by norm_num)
    have m25 := quantile_mono (df.map Row.pbr)
      (show (0:ℚ) ≤ 1/4 by norm_num) (show (1:ℚ)/4 ≤ 9/10 by norm_num)
      (show (9:ℚ)/10 ≤ 1 by norm_num)
    have m34 := quantile_mono (df.map Row.pbr)
      (show (0:ℚ) ≤ 1/2 by norm_num) (show (1:ℚ)/2 ≤ 3/4 by norm_num)
      (show (3:ℚ)/4 ≤ 1 by norm_num)
    have m35 := quantile_mono (df.map Row.pbr)
      (show (0:ℚ) ≤ 1/2 by norm_num) (show (1:ℚ)/2 ≤ 9/10 by norm_num)
      (show (9:ℚ)/10 ≤ 1 by norm_num)
    have m45 := quantile_mono (df.map Row.pbr)
      (show (0:ℚ) ≤ 3/4 by norm_num) (show (3:ℚ)/4 ≤ 9/10 by norm_num)
      (show (9:ℚ)/10 ≤ 1 by norm_num)
    simp only [List.sorted_cons, List.mem_cons, List.mem_singleton, List.not_mem_nil,
      forall_eq_or_imp, forall_eq, List.sorted_nil, List.sorted_singleton]
    exact ⟨⟨m12, m13, m14, m15, fun a ha => ha.elim⟩,
      ⟨m23, m24, m25, fun a ha => ha.elim⟩, ⟨m34, m35, fun a ha => ha.elim⟩,
      ⟨m45, fun a ha => ha.elim⟩, fun b hb => hb.elim, trivial⟩
  have hsl : List.Sorted bandLE (calculate_band_line df .PBR ticker) :=
    (List.pairwise_map (f := Band.multiple)).mp hs
  exact ⟨hs, List.Sorted.insertionSort_eq hsl⟩

/-- Witness for C10 at a one-row series. -/
theorem pbr_multiples_monotone_witness :
    ([⟨0, 1, 1, 1, 1, 1⟩] : List Row) ≠ []
    ∧ (List.Sorted (· ≤ ·)
        ((calculate_band_line [⟨0, 1, 1, 1, 1, 1⟩] .PBR "000660").map Band.multiple)
       ∧ sortBands (calculate_band_line [⟨0, 1, 1, 1, 1, 1⟩] .PBR "000660")
           = calculate_band_line [⟨0, 1, 1, 1, 1, 1⟩] .PBR "000660") :=
  ⟨by decide, pbr_multiples_monotone [⟨0, 1, 1, 1, 1, 1⟩] "000660" (by decide)⟩

end KValuationBand
